import Mathlib

/-!
Shallow embedding of the palladiumdb concurrent hash map.

The repository contains two near-duplicate implementations of the same
bucketed hash map:

* `src/collections/map/{mod,bucket,utils}.rs` — the module copy, whose
  `Bucket::get` / `Map::get` return `Option<V>`; embedded below in
  namespace `CMap`.
* `src/lib.rs` — the crate-root copy, whose `Bucket::get` takes a default
  value and whose `Map::get` returns `V` using `V::default()`; embedded in
  namespace `LMap`.

Both copies contain a character-identical `LockWrapper` enum
(`utils.rs` lines 7-30 and `lib.rs` lines 12-35); it is embedded once.
RwLock guards are modelled by explicit state passing: acquiring the lock
hands the current entry list to the operation, and a mutation returns the
new list.  A Rust `panic!` (and every `unwrap` that can fail) is modelled
as `none` in an `Option`-returning function.

The hash builder (`RandomState` / any `H : BuildHasher`) is modelled as a
deterministic function `K → Nat`; `hasher.finish() as usize` is the digest
truncated to 64 bits (64-bit target).
-/

namespace Palladium

/-- Embeds `LockWrapper<'a, T>` from `src/collections/map/utils.rs`
(an identical copy lives in `src/lib.rs`): a guard that is either a
read guard or a write guard over a value of type `T`. -/
inductive LockWrapper (T : Type) where
  | Read : T → LockWrapper T
  | Write : T → LockWrapper T

/-- Embeds `Deref for LockWrapper`: both guard kinds give shared access. -/
def LockWrapper.deref {T : Type} : LockWrapper T → T
  | .Read t => t
  | .Write t => t

/-- Embeds `DerefMut for LockWrapper`: mutable access through a write
guard succeeds; through a read guard the source calls `panic!()`,
modelled as `none`. -/
def LockWrapper.deref_mut {T : Type} : LockWrapper T → Option T
  | .Read _ => none
  | .Write t => some t

/-- Embeds `BucketData<K, V> = Vec<BucketValue<K, V>>`, the entry list of
one bucket; `BucketValue(K, V)` is the pair `(key, value)`. -/
abbrev BucketData (K V : Type) := List (K × V)

/-- Embeds `Vec::get_mut(i).unwrap().1 = value` from `Bucket::put`:
replace the value component of the entry at index `i`, keeping its key;
`none` models the `unwrap` panic when `i` is out of range. -/
def set_value {K V : Type} (i : Nat) (value : V) : BucketData K V → Option (BucketData K V)
  | [] => none
  | e :: rest =>
    match i with
    | 0 => some ((e.1, value) :: rest)
    | j + 1 => (set_value j value rest).map (e :: ·)

/-- Embeds `Vec::swap_remove(i)`: the element at `i` is replaced by the
last element and the vector is shortened by one; `none` models the panic
when `i` is out of range. -/
def swap_remove {α : Type} (i : Nat) (data : List α) : Option (List α) :=
  match data.getLast? with
  | none => none
  | some last => if i < data.length then some ((data.set i last).dropLast) else none

variable {K V : Type} [DecidableEq K]

namespace CMap

/-- Embeds the scan inside `Bucket::find_entry_for`
(`src/collections/map/bucket.rs` lines 47-49): `data.iter().enumerate()
.find(|(_, BucketValue(elem_key, _))| *elem_key == *key)` — the first
entry whose key equals `key`, together with its index. -/
def findEntryList (key : K) : BucketData K V → Option (Nat × (K × V))
  | [] => none
  | e :: rest =>
    if e.1 = key then some (0, e)
    else (findEntryList key rest).map (fun p => (p.1 + 1, p.2))

/-- Embeds `Bucket::find_entry_for` (`bucket.rs` lines 43-50): the scan
runs over the list reached through the guard's `Deref`. -/
def find_entry_for (key : K) (data : LockWrapper (BucketData K V)) :
    Option (Nat × (K × V)) :=
  findEntryList key data.deref

/-- Embeds `Bucket::get` (`bucket.rs` lines 52-58): take a read guard,
scan, and return a clone of the matched value or `None`. -/
def Bucket.get (key : K) (b : BucketData K V) : Option V :=
  let gaurd := LockWrapper.Read b
  match find_entry_for key gaurd with
  | some (_, e) => some e.2
  | none => none

/-- Embeds `Bucket::put` (`bucket.rs` lines 60-66): take a write guard;
if no entry has the key, push `(key, value)`, otherwise overwrite the
value at the found index.  Both mutations go through `DerefMut`. -/
def Bucket.put (key : K) (value : V) (b : BucketData K V) : Option (BucketData K V) :=
  let gaurd := LockWrapper.Write b
  match find_entry_for key gaurd with
  | none => (gaurd.deref_mut).map (fun data => data ++ [(key, value)])
  | some (i, _) => (gaurd.deref_mut).bind (set_value i value)

/-- Embeds `Bucket::unmap` (`bucket.rs` lines 68-73): take a write guard;
if an entry with the key exists, remove it with `swap_remove`. -/
def Bucket.unmap (key : K) (b : BucketData K V) : Option (BucketData K V) :=
  let gaurd := LockWrapper.Write b
  match find_entry_for key gaurd with
  | none => some b
  | some (i, _) => (gaurd.deref_mut).bind (swap_remove i)

/-- Embeds `Map<K, V, H>` (`mod.rs` lines 10-13): a hash builder and a
vector of buckets, each bucket being its entry list. -/
structure Map (K V : Type) where
  hash_builder : K → Nat
  buckets : List (BucketData K V)

/-- Embeds `DEFAULT_BUCKET_COUNT` (`mod.rs` line 63). -/
def Map.DEFAULT_BUCKET_COUNT : Nat := 19

/-- Embeds `Map::with_hasher_and_bucket_count` (`mod.rs` lines 86-94):
allocate `bucket_count` empty buckets.  Note: despite its `# Panics` doc
comment, the body performs no zero check. -/
def Map.with_hasher_and_bucket_count (hash_builder : K → Nat) (bucket_count : Nat) :
    Map K V :=
  { hash_builder := hash_builder
    buckets := List.replicate bucket_count [] }

/-- Embeds `Map::with_bucket_count` (`mod.rs` lines 48-54): `panic!()`
(modelled as `none`) when `bucket_count == 0`, otherwise delegate.
`RandomState::new()` is modelled as a given hash function. -/
def Map.with_bucket_count (hash_builder : K → Nat) (bucket_count : Nat) :
    Option (Map K V) :=
  if bucket_count = 0 then none
  else some (Map.with_hasher_and_bucket_count hash_builder bucket_count)

/-- Embeds `Map::new` (`mod.rs` lines 30-32): the default bucket count. -/
def Map.new (hash_builder : K → Nat) : Option (Map K V) :=
  Map.with_bucket_count hash_builder Map.DEFAULT_BUCKET_COUNT

/-- Embeds the routing computation of `Map::get_bucket` (`mod.rs` lines
119-126): `hash = hasher.finish() as usize; bucket_index = hash %
self.buckets.len()`.  `finish` yields a 64-bit digest; `hash % 0`
panics in Rust, modelled as `none`. -/
def Map.get_bucket_index (m : Map K V) (key : K) : Option Nat :=
  let hash := m.hash_builder key % 2 ^ 64
  if m.buckets.length = 0 then none
  else some (hash % m.buckets.length)

/-- Embeds `Map::put` (`mod.rs` lines 148-150): route to the bucket and
delegate to `Bucket::put`; the updated bucket replaces the old one. -/
def Map.put (m : Map K V) (key : K) (value : V) : Option (Map K V) :=
  (m.get_bucket_index key).bind fun i =>
    (m.buckets[i]?).bind fun b =>
      (Bucket.put key value b).map fun b' =>
        { m with buckets := m.buckets.set i b' }

/-- Embeds `Map::get` (`mod.rs` lines 164-166): route and delegate to
`Bucket::get`.  The outer `Option` models the routing panic, the inner
one is the source's `Option<V>` result. -/
def Map.get (m : Map K V) (key : K) : Option (Option V) :=
  (m.get_bucket_index key).bind fun i =>
    (m.buckets[i]?).map (Bucket.get key)

/-- Embeds `Map::unmap` (`mod.rs` lines 185-187): route and delegate to
`Bucket::unmap`. -/
def Map.unmap (m : Map K V) (key : K) : Option (Map K V) :=
  (m.get_bucket_index key).bind fun i =>
    (m.buckets[i]?).bind fun b =>
      (Bucket.unmap key b).map fun b' =>
        { m with buckets := m.buckets.set i b' }

end CMap

namespace LMap

/-- Embeds the scan inside the crate-root `Bucket::find_entry_for`
(`src/lib.rs` lines 56-58), textually identical to the module copy. -/
def findEntryList (key : K) : BucketData K V → Option (Nat × (K × V))
  | [] => none
  | e :: rest =>
    if e.1 = key then some (0, e)
    else (findEntryList key rest).map (fun p => (p.1 + 1, p.2))

/-- Embeds the crate-root `Bucket::find_entry_for` (`lib.rs` lines 52-59). -/
def find_entry_for (key : K) (data : LockWrapper (BucketData K V)) :
    Option (Nat × (K × V)) :=
  findEntryList key data.deref

/-- Embeds the crate-root `Bucket::get` (`lib.rs` lines 61-67): like the
module copy but returns a caller-supplied `default_value` on a miss. -/
def Bucket.get (key : K) (default_value : V) (b : BucketData K V) : V :=
  let gaurd := LockWrapper.Read b
  match find_entry_for key gaurd with
  | some (_, e) => e.2
  | none => default_value

/-- Embeds the crate-root `Bucket::put` (`lib.rs` lines 69-75), textually
identical to the module copy. -/
def Bucket.put (key : K) (value : V) (b : BucketData K V) : Option (BucketData K V) :=
  let gaurd := LockWrapper.Write b
  match find_entry_for key gaurd with
  | none => (gaurd.deref_mut).map (fun data => data ++ [(key, value)])
  | some (i, _) => (gaurd.deref_mut).bind (set_value i value)

/-- Embeds the crate-root `Bucket::unmap` (`lib.rs` lines 77-82), textually
identical to the module copy. -/
def Bucket.unmap (key : K) (b : BucketData K V) : Option (BucketData K V) :=
  let gaurd := LockWrapper.Write b
  match find_entry_for key gaurd with
  | none => some b
  | some (i, _) => (gaurd.deref_mut).bind (swap_remove i)

/-- Embeds the crate-root `Map<K, V, H>` (`lib.rs` lines 87-94). -/
structure Map (K V : Type) where
  hash_builder : K → Nat
  buckets : List (BucketData K V)

/-- Embeds the crate-root `Map::new` (`lib.rs` lines 101-109): allocate
`number_of_buckets` empty buckets with no zero check;
`RandomState::new()` is modelled as a given hash function. -/
def Map.new (number_of_buckets : Nat) (hash_builder : K → Nat) : Map K V :=
  { hash_builder := hash_builder
    buckets := List.replicate number_of_buckets [] }

/-- Embeds the routing computation of the crate-root `Map::get_bucket`
(`lib.rs` lines 118-124), textually identical to the module copy. -/
def Map.get_bucket_index (m : Map K V) (key : K) : Option Nat :=
  let hash := m.hash_builder key % 2 ^ 64
  if m.buckets.length = 0 then none
  else some (hash % m.buckets.length)

/-- Embeds the crate-root `Map::put` (`lib.rs` lines 126-128). -/
def Map.put (m : Map K V) (key : K) (value : V) : Option (Map K V) :=
  (m.get_bucket_index key).bind fun i =>
    (m.buckets[i]?).bind fun b =>
      (Bucket.put key value b).map fun b' =>
        { m with buckets := m.buckets.set i b' }

/-- Embeds the crate-root `Map::get` (`lib.rs` lines 130-132): delegate
to `Bucket::get` with `V::default()` as the fallback.  `Default` is
modelled by `Inhabited`. -/
def Map.get [Inhabited V] (m : Map K V) (key : K) : Option V :=
  (m.get_bucket_index key).bind fun i =>
    (m.buckets[i]?).map (Bucket.get key default)

end LMap

/-! ### Specification-level predicates over the embedded state -/

/-- The unique-key invariant of one bucket (spec §3: at most one entry per
distinct key): the keys of the entry list are pairwise distinct. -/
def keysNodup (b : BucketData K V) : Prop := (b.map Prod.fst).Nodup

/-- Number of entries in a bucket carrying the given key. -/
def countKey (key : K) (b : BucketData K V) : Nat :=
  b.countP (fun e => decide (e.1 = key))

namespace CMap

/-- All buckets of a map satisfy the unique-key invariant. -/
def MapInv (m : Map K V) : Prop := ∀ b ∈ m.buckets, keysNodup b

/-- The key appears in no bucket of the map (never inserted, or removed). -/
def keyAbsent (m : Map K V) (key : K) : Prop :=
  ∀ b ∈ m.buckets, key ∉ b.map Prod.fst

/-! ### Bucket-level lemmas -/

theorem put_unfold (key : K) (value : V) (b : BucketData K V) :
    Bucket.put key value b =
      match findEntryList key b with
      | none => some (b ++ [(key, value)])
      | some (i, _) => set_value i value b := by
  simp only [Bucket.put, find_entry_for, LockWrapper.deref, LockWrapper.deref_mut]
  cases h : findEntryList key b with
  | none => simp
  | some p => cases p with | mk i e => simp [Option.bind]

theorem unmap_unfold (key : K) (b : BucketData K V) :
    Bucket.unmap key b =
      match findEntryList key b with
      | none => some b
      | some (i, _) => swap_remove i b := by
  simp only [Bucket.unmap, find_entry_for, LockWrapper.deref, LockWrapper.deref_mut]
  cases h : findEntryList key b with
  | none => simp
  | some p => cases p with | mk i e => simp [Option.bind]

theorem get_unfold (key : K) (b : BucketData K V) :
    Bucket.get key b =
      match findEntryList key b with
      | some (_, e) => some e.2
      | none => none := by
  simp only [Bucket.get, find_entry_for, LockWrapper.deref]

theorem get_nil (key : K) : Bucket.get key ([] : BucketData K V) = none := by
  simp [get_unfold, findEntryList]

theorem get_cons (key : K) (e : K × V) (b : BucketData K V) :
    Bucket.get key (e :: b) = if e.1 = key then some e.2 else Bucket.get key b := by
  rw [get_unfold, get_unfold]
  by_cases h : e.1 = key
  · simp [findEntryList, h]
  · cases hf : findEntryList key b with
    | none => simp [findEntryList, h, hf]
    | some p => cases p with | mk i e' => simp [findEntryList, h, hf]

theorem findEntryList_eq_none_iff (key : K) (b : BucketData K V) :
    findEntryList key b = none ↔ key ∉ b.map Prod.fst := by
  induction b with
  | nil => simp [findEntryList]
  | cons e rest ih =>
    by_cases h : e.1 = key
    · simp [findEntryList, h]
    · cases hf : findEntryList key rest with
      | none =>
        have hk : ¬key = e.1 := fun hc => h hc.symm
        simp [findEntryList, h, hf, hk, ih.mp hf]
      | some p =>
        have hmem : key ∈ rest.map Prod.fst := not_not.mp (mt ih.mpr (by simp [hf]))
        simp [findEntryList, h, hf, hmem]

theorem findEntryList_some (key : K) (b : BucketData K V) (i : Nat) (e : K × V)
    (h : findEntryList key b = some (i, e)) : b[i]? = some e ∧ e.1 = key := by
  induction b generalizing i with
  | nil => simp [findEntryList] at h
  | cons e0 rest ih =>
    by_cases h0 : e0.1 = key
    · rw [findEntryList, if_pos h0] at h
      simp only [Option.some.injEq, Prod.mk.injEq] at h
      obtain ⟨rfl, rfl⟩ := h
      exact ⟨by simp, h0⟩
    · rw [findEntryList, if_neg h0] at h
      cases hf : findEntryList key rest with
      | none => rw [hf] at h; simp at h
      | some p =>
        rw [hf] at h
        cases p with | mk j e' =>
        simp only [Option.map_some', Option.some.injEq, Prod.mk.injEq] at h
        obtain ⟨rfl, rfl⟩ := h
        obtain ⟨h1, h2⟩ := ih j hf
        exact ⟨by simpa using h1, h2⟩

/-- Structural recursion equivalent of `Bucket::put` on the entry list:
overwrite the value of the first entry with the key, or append. -/
def putSpec (key : K) (value : V) : BucketData K V → BucketData K V
  | [] => [(key, value)]
  | e :: rest => if e.1 = key then (e.1, value) :: rest else e :: putSpec key value rest

theorem put_eq_putSpec (key : K) (value : V) (b : BucketData K V) :
    Bucket.put key value b = some (putSpec key value b) := by
  induction b with
  | nil => simp [put_unfold, findEntryList, putSpec]
  | cons e rest ih =>
    rw [put_unfold] at ih ⊢
    by_cases h : e.1 = key
    · simp [findEntryList, h, putSpec, set_value]
    · rw [putSpec, if_neg h]
      cases hf : findEntryList key rest with
      | none =>
        rw [hf] at ih
        simp only at ih
        simp [findEntryList, h, hf, Option.some.inj ih]
      | some p =>
        rw [hf] at ih
        cases p with | mk j e' =>
        simp only at ih
        simp [findEntryList, h, hf, set_value, ih]

theorem put_isSome (key : K) (value : V) (b : BucketData K V) :
    (Bucket.put key value b).isSome := by
  rw [put_eq_putSpec]; rfl

theorem get_putSpec_self (key : K) (value : V) (b : BucketData K V) :
    Bucket.get key (putSpec key value b) = some value := by
  induction b with
  | nil => simp [putSpec, get_cons, get_nil]
  | cons e rest ih =>
    by_cases h : e.1 = key
    · simp [putSpec, h, get_cons]
    · simp [putSpec, h, get_cons, ih]

theorem get_putSpec_ne (k' key : K) (value : V) (b : BucketData K V)
    (hne : k' ≠ key) : Bucket.get k' (putSpec key value b) = Bucket.get k' b := by
  induction b with
  | nil =>
    have hk : ¬key = k' := fun hc => hne hc.symm
    simp [putSpec, get_cons, get_nil, hk]
  | cons e rest ih =>
    by_cases h : e.1 = key
    · rw [putSpec, if_pos h, get_cons, get_cons]
      have hk : ¬e.1 = k' := fun hc => hne (hc.symm.trans h)
      simp [hk]
    · rw [putSpec, if_neg h, get_cons, get_cons, ih]

theorem keys_putSpec (key : K) (value : V) (b : BucketData K V) :
    (putSpec key value b).map Prod.fst =
      if key ∈ b.map Prod.fst then b.map Prod.fst else b.map Prod.fst ++ [key] := by
  induction b with
  | nil => simp [putSpec]
  | cons e rest ih =>
    by_cases h : e.1 = key
    · simp [putSpec, h]
    · have hk : ¬key = e.1 := fun hc => h hc.symm
      by_cases hmem : key ∈ rest.map Prod.fst
      · simp [putSpec, h, hk, hmem, ih]
      · simp [putSpec, h, hk, hmem, ih]

theorem keysNodup_putSpec (key : K) (value : V) (b : BucketData K V)
    (h : keysNodup b) : keysNodup (putSpec key value b) := by
  unfold keysNodup at h ⊢
  rw [keys_putSpec]
  by_cases hmem : key ∈ b.map Prod.fst
  · simpa [hmem] using h
  · rw [if_neg hmem]
    exact (List.perm_append_singleton key (b.map Prod.fst)).symm.nodup
      ((List.nodup_cons).mpr ⟨hmem, h⟩)

theorem countKey_eq_zero (key : K) (b : BucketData K V)
    (h : key ∉ b.map Prod.fst) : countKey key b = 0 := by
  unfold countKey
  rw [List.countP_eq_zero]
  intro e he
  simp only [decide_eq_true_eq]
  intro hc
  exact h (hc ▸ List.mem_map_of_mem Prod.fst he)

theorem countKey_putSpec (key : K) (value : V) (b : BucketData K V)
    (h : keysNodup b) : countKey key (putSpec key value b) = 1 := by
  induction b with
  | nil => simp [putSpec, countKey]
  | cons e rest ih =>
    unfold keysNodup at h
    simp only [List.map_cons, List.nodup_cons] at h
    by_cases he : e.1 = key
    · rw [putSpec, if_pos he]
      have : countKey key rest = 0 := countKey_eq_zero key rest (he ▸ h.1)
      simp only [countKey, List.countP_cons] at this ⊢
      simp [he, this]
    · rw [putSpec, if_neg he]
      have := ih h.2
      simp only [countKey, List.countP_cons] at this ⊢
      simp [he, this]

theorem get_eq_none_iff (key : K) (b : BucketData K V) :
    Bucket.get key b = none ↔ key ∉ b.map Prod.fst := by
  rw [get_unfold]
  cases hf : findEntryList key b with
  | none => simp [(findEntryList_eq_none_iff key b).mp hf]
  | some p =>
    cases p with | mk i e =>
    obtain ⟨h1, h2⟩ := findEntryList_some key b i e hf
    have he : e ∈ b := by
      obtain ⟨hlt, hget⟩ := List.getElem?_eq_some_iff.mp h1
      exact hget ▸ List.getElem_mem hlt
    simp only []
    constructor
    · intro hc; exact absurd hc (by simp)
    · intro hc; exact absurd (h2 ▸ List.mem_map_of_mem Prod.fst he) hc

theorem mem_of_get_eq_some (key : K) (v : V) (b : BucketData K V)
    (h : Bucket.get key b = some v) : (key, v) ∈ b := by
  induction b with
  | nil => rw [get_nil] at h; exact absurd h (by simp)
  | cons e rest ih =>
    rw [get_cons] at h
    by_cases he : e.1 = key
    · rw [if_pos he] at h
      have hv : e.2 = v := Option.some.inj h
      have : (key, v) = e := by
        rcases e with ⟨k0, v0⟩
        simp only at he hv
        rw [he, hv]
      exact this ▸ List.mem_cons_self e rest
    · rw [if_neg he] at h
      exact List.mem_cons_of_mem e (ih h)

theorem get_eq_some_of_mem (key : K) (v : V) (b : BucketData K V)
    (hnd : keysNodup b) (hmem : (key, v) ∈ b) : Bucket.get key b = some v := by
  induction b with
  | nil => exact absurd hmem (by simp)
  | cons e rest ih =>
    unfold keysNodup at hnd
    simp only [List.map_cons, List.nodup_cons] at hnd
    rw [get_cons]
    rcases List.mem_cons.mp hmem with heq | hrest
    · rw [if_pos (by rw [← heq])]
      rw [← heq]
    · by_cases he : e.1 = key
      · exfalso
        exact hnd.1 (he ▸ List.mem_map_of_mem Prod.fst hrest)
      · rw [if_neg he]
        exact ih hnd.2 hrest

theorem get_perm (key : K) (b b' : BucketData K V)
    (hp : b.Perm b') (hnd : keysNodup b) : Bucket.get key b = Bucket.get key b' := by
  have hnd' : keysNodup b' := (hp.map Prod.fst).nodup hnd
  cases hg : Bucket.get key b with
  | none =>
    have := (get_eq_none_iff key b).mp hg
    symm
    rw [get_eq_none_iff]
    intro hc
    exact this (((hp.map Prod.fst).mem_iff).mpr hc)
  | some v =>
    exact (get_eq_some_of_mem key v b' hnd'
      (hp.mem_iff.mp (mem_of_get_eq_some key v b hg))).symm

end CMap

/-! ### Permutation facts about `swap_remove` -/

theorem set_perm {α : Type} (l : List α) (i : Nat) (a : α) (h : i < l.length) :
    (l.set i a).Perm (a :: l.eraseIdx i) := by
  induction l generalizing i with
  | nil => simp at h
  | cons x t ih =>
    cases i with
    | zero => simp
    | succ j =>
      have hj : j < t.length := by simpa using h
      have h1 : (x :: t).set (j + 1) a = x :: t.set j a := by simp
      have h2 : a :: (x :: t).eraseIdx (j + 1) = a :: x :: t.eraseIdx j := by simp
      rw [h1, h2]
      exact ((ih j hj).cons x).trans (List.Perm.swap a x (t.eraseIdx j))

theorem cons_eraseIdx_perm {α : Type} (l : List α) (i : Nat) (e : α)
    (h : l[i]? = some e) : l.Perm (e :: l.eraseIdx i) := by
  induction l generalizing i with
  | nil => simp at h
  | cons x t ih =>
    cases i with
    | zero =>
      simp only [List.getElem?_cons_zero, Option.some.injEq] at h
      rw [h, List.eraseIdx_cons_zero]
    | succ j =>
      rw [List.getElem?_cons_succ] at h
      have h2 : e :: (x :: t).eraseIdx (j + 1) = e :: x :: t.eraseIdx j := by simp
      rw [h2]
      exact ((ih j h).cons x).trans (List.Perm.swap e x (t.eraseIdx j))

theorem swap_remove_perm {α : Type} (b : List α) (i : Nat) (h : i < b.length) :
    ∃ b', swap_remove i b = some b' ∧ b'.Perm (b.eraseIdx i) := by
  rcases List.eq_nil_or_concat b with rfl | ⟨l, x, rfl⟩
  · simp at h
  · rw [List.concat_eq_append] at h ⊢
    have hlast : (l ++ [x]).getLast? = some x := List.getLast?_concat l
    have h' : i < l.length + 1 := by simpa using h
    have hred : swap_remove i (l ++ [x]) = some (((l ++ [x]).set i x).dropLast) := by
      rw [swap_remove, hlast]
      simp [h']
    refine ⟨((l ++ [x]).set i x).dropLast, hred, ?_⟩
    rcases Nat.lt_or_ge i l.length with hi | hi
    · have hset : (l ++ [x]).set i x = l.set i x ++ [x] := by
        rw [List.set_append, if_pos hi]
      have herase : (l ++ [x]).eraseIdx i = l.eraseIdx i ++ [x] :=
        List.eraseIdx_append_of_lt_length hi [x]
      rw [hset, List.dropLast_concat, herase]
      exact (set_perm l i x hi).trans (List.perm_append_singleton x _).symm
    · have hieq : i = l.length := by
        have := List.length_append l [x] ▸ h
        simp at this
        omega
      have hset : (l ++ [x]).set i x = l ++ [x] := by
        rw [List.set_append, if_neg (by omega), hieq]
        simp
      have herase : (l ++ [x]).eraseIdx i = l :=  by
        rw [List.eraseIdx_append_of_length_le (by omega), hieq]
        simp
      rw [hset, List.dropLast_concat, herase]

namespace CMap

/-! ### Bucket-level lemmas about `unmap` -/

theorem unmap_isSome (key : K) (b : BucketData K V) :
    (Bucket.unmap key b).isSome := by
  rw [unmap_unfold]
  cases hf : findEntryList key b with
  | none => rfl
  | some p =>
    cases p with | mk i e =>
    obtain ⟨h1, _⟩ := findEntryList_some key b i e hf
    obtain ⟨hlt, _⟩ := List.getElem?_eq_some_iff.mp h1
    obtain ⟨b', hb', _⟩ := swap_remove_perm b i hlt
    simp [hb']

theorem unmap_of_absent (key : K) (b : BucketData K V)
    (h : key ∉ b.map Prod.fst) : Bucket.unmap key b = some b := by
  rw [unmap_unfold, (findEntryList_eq_none_iff key b).mpr h]

theorem unmap_present_perm (key : K) (b b' : BucketData K V) (i : Nat) (e : K × V)
    (hf : findEntryList key b = some (i, e))
    (hu : Bucket.unmap key b = some b') :
    e.1 = key ∧ b.Perm (e :: b.eraseIdx i) ∧ b'.Perm (b.eraseIdx i) := by
  obtain ⟨h1, h2⟩ := findEntryList_some key b i e hf
  obtain ⟨hlt, _⟩ := List.getElem?_eq_some_iff.mp h1
  obtain ⟨b'', hb'', hperm⟩ := swap_remove_perm b i hlt
  rw [unmap_unfold, hf] at hu
  change swap_remove i b = some b' at hu
  rw [hb''] at hu
  exact ⟨h2, cons_eraseIdx_perm b i e h1, (Option.some.inj hu) ▸ hperm⟩

omit [DecidableEq K] in
theorem keysNodup_eraseIdx (b : BucketData K V) (i : Nat)
    (h : keysNodup b) : keysNodup (b.eraseIdx i) := by
  unfold keysNodup at h ⊢
  exact ((List.eraseIdx_sublist b i).map Prod.fst).nodup h

theorem keysNodup_unmap (key : K) (b b' : BucketData K V)
    (h : keysNodup b) (hu : Bucket.unmap key b = some b') : keysNodup b' := by
  cases hf : findEntryList key b with
  | none =>
    rw [unmap_unfold, hf] at hu
    exact (Option.some.inj hu) ▸ h
  | some p =>
    cases p with | mk i e =>
    obtain ⟨_, _, hperm⟩ := unmap_present_perm key b b' i e hf hu
    exact (hperm.map Prod.fst).symm.nodup (keysNodup_eraseIdx b i h)

theorem get_unmap_self (key : K) (b b' : BucketData K V)
    (hnd : keysNodup b) (hu : Bucket.unmap key b = some b') :
    Bucket.get key b' = none := by
  cases hf : findEntryList key b with
  | none =>
    rw [unmap_unfold, hf] at hu
    rw [← Option.some.inj hu, get_unfold, hf]
  | some p =>
    cases p with | mk i e =>
    obtain ⟨hk, hcons, hperm⟩ := unmap_present_perm key b b' i e hf hu
    rw [get_eq_none_iff]
    intro hc
    have hc' : key ∈ (b.eraseIdx i).map Prod.fst := (hperm.map Prod.fst).mem_iff.mp hc
    have : (b.map Prod.fst).Nodup := hnd
    have hbperm : (b.map Prod.fst).Perm (e.1 :: (b.eraseIdx i).map Prod.fst) := by
      simpa using hcons.map Prod.fst
    have : (e.1 :: (b.eraseIdx i).map Prod.fst).Nodup := hbperm.nodup this
    rw [List.nodup_cons] at this
    exact this.1 (hk ▸ hc')

theorem get_unmap_ne (k' key : K) (b b' : BucketData K V) (hne : k' ≠ key)
    (hnd : keysNodup b) (hu : Bucket.unmap key b = some b') :
    Bucket.get k' b' = Bucket.get k' b := by
  cases hf : findEntryList key b with
  | none =>
    rw [unmap_unfold, hf] at hu
    rw [← Option.some.inj hu]
  | some p =>
    cases p with | mk i e =>
    obtain ⟨hk, hcons, hperm⟩ := unmap_present_perm key b b' i e hf hu
    have hnd' : keysNodup b' := keysNodup_unmap key b b' hnd hu
    have h1 : Bucket.get k' b' = Bucket.get k' (b.eraseIdx i) :=
      get_perm k' b' (b.eraseIdx i) hperm hnd'
    have h2 : Bucket.get k' b = Bucket.get k' (e :: b.eraseIdx i) :=
      get_perm k' b (e :: b.eraseIdx i) hcons hnd
    rw [h1, h2, get_cons, if_neg (fun hc => hne (hc.symm.trans hk))]

/-! ### Map-level lemmas -/

theorem get_bucket_index_of_pos (m : Map K V) (key : K)
    (h : 0 < m.buckets.length) :
    m.get_bucket_index key =
      some (m.hash_builder key % 2 ^ 64 % m.buckets.length) := by
  rw [Map.get_bucket_index, if_neg (Nat.pos_iff_ne_zero.mp h)]

theorem get_bucket_index_lt (m : Map K V) (key : K) (i : Nat)
    (h : m.get_bucket_index key = some i) : i < m.buckets.length := by
  rw [Map.get_bucket_index] at h
  by_cases h0 : m.buckets.length = 0
  · rw [if_pos h0] at h; exact absurd h (by simp)
  · rw [if_neg h0] at h
    rw [← Option.some.inj h]
    exact Nat.mod_lt _ (Nat.pos_of_ne_zero h0)

theorem get_bucket_index_none (m : Map K V) (key : K)
    (h : m.buckets.length = 0) : m.get_bucket_index key = none := by
  rw [Map.get_bucket_index, if_pos h]

theorem put_some_elim (m m' : Map K V) (key : K) (value : V)
    (h : m.put key value = some m') :
    ∃ i b, m.get_bucket_index key = some i ∧ m.buckets[i]? = some b ∧
      m' = { m with buckets := m.buckets.set i (putSpec key value b) } := by
  rw [Map.put] at h
  cases hi : m.get_bucket_index key with
  | none => rw [hi] at h; exact absurd h (by simp)
  | some i =>
    rw [hi] at h
    simp only [Option.some_bind] at h
    cases hb : m.buckets[i]? with
    | none => rw [hb] at h; exact absurd h (by simp)
    | some b =>
      rw [hb] at h
      simp only [Option.some_bind, put_eq_putSpec, Option.map_some'] at h
      exact ⟨i, b, rfl, hb, (Option.some.inj h).symm⟩

theorem unmap_some_elim (m m' : Map K V) (key : K)
    (h : m.unmap key = some m') :
    ∃ i b b', m.get_bucket_index key = some i ∧ m.buckets[i]? = some b ∧
      Bucket.unmap key b = some b' ∧
      m' = { m with buckets := m.buckets.set i b' } := by
  rw [Map.unmap] at h
  cases hi : m.get_bucket_index key with
  | none => rw [hi] at h; exact absurd h (by simp)
  | some i =>
    rw [hi] at h
    simp only [Option.some_bind] at h
    cases hb : m.buckets[i]? with
    | none => rw [hb] at h; exact absurd h (by simp)
    | some b =>
      rw [hb] at h
      simp only [Option.some_bind] at h
      cases hu : Bucket.unmap key b with
      | none => rw [hu] at h; exact absurd h (by simp)
      | some b' =>
        rw [hu] at h
        simp only [Option.map_some'] at h
        exact ⟨i, b, b', rfl, hb, hu, (Option.some.inj h).symm⟩

theorem get_eq_of_index (m : Map K V) (key : K) (i : Nat) (b : BucketData K V)
    (hi : m.get_bucket_index key = some i) (hb : m.buckets[i]? = some b) :
    m.get key = some (Bucket.get key b) := by
  rw [Map.get, hi]
  simp only [Option.some_bind, hb, Option.map_some']

theorem put_preserves_shape (m m' : Map K V) (key : K) (value : V)
    (h : m.put key value = some m') :
    m'.hash_builder = m.hash_builder ∧ m'.buckets.length = m.buckets.length := by
  obtain ⟨i, b, _, _, rfl⟩ := put_some_elim m m' key value h
  exact ⟨rfl, List.length_set m.buckets i _⟩

theorem unmap_preserves_shape (m m' : Map K V) (key : K)
    (h : m.unmap key = some m') :
    m'.hash_builder = m.hash_builder ∧ m'.buckets.length = m.buckets.length := by
  obtain ⟨i, b, b', _, _, _, rfl⟩ := unmap_some_elim m m' key h
  exact ⟨rfl, List.length_set m.buckets i _⟩

theorem index_stable_of_shape (m m' : Map K V) (key : K)
    (hh : m'.hash_builder = m.hash_builder)
    (hl : m'.buckets.length = m.buckets.length) :
    m'.get_bucket_index key = m.get_bucket_index key := by
  rw [Map.get_bucket_index, Map.get_bucket_index, hh, hl]

theorem put_isSome_of_pos (m : Map K V) (key : K) (value : V)
    (h : 0 < m.buckets.length) : (m.put key value).isSome := by
  rw [Map.put, get_bucket_index_of_pos m key h]
  have hlt : m.hash_builder key % 2 ^ 64 % m.buckets.length < m.buckets.length :=
    Nat.mod_lt _ h
  rw [Option.some_bind, List.getElem?_eq_getElem hlt, Option.some_bind,
    put_eq_putSpec]
  rfl

theorem unmap_isSome_of_pos (m : Map K V) (key : K)
    (h : 0 < m.buckets.length) : (m.unmap key).isSome := by
  rw [Map.unmap, get_bucket_index_of_pos m key h]
  have hlt : m.hash_builder key % 2 ^ 64 % m.buckets.length < m.buckets.length :=
    Nat.mod_lt _ h
  rw [Option.some_bind, List.getElem?_eq_getElem hlt, Option.some_bind]
  obtain ⟨b', hb'⟩ := Option.isSome_iff_exists.mp
    (unmap_isSome key (m.buckets[m.hash_builder key % 2 ^ 64 % m.buckets.length]))
  rw [hb']
  rfl

theorem get_isSome_of_pos (m : Map K V) (key : K)
    (h : 0 < m.buckets.length) : (m.get key).isSome := by
  rw [Map.get, get_bucket_index_of_pos m key h]
  have hlt : m.hash_builder key % 2 ^ 64 % m.buckets.length < m.buckets.length :=
    Nat.mod_lt _ h
  rw [Option.some_bind, List.getElem?_eq_getElem hlt]
  rfl

theorem MapInv_bucket (m : Map K V) (i : Nat) (b : BucketData K V)
    (hinv : MapInv m) (hb : m.buckets[i]? = some b) : keysNodup b := by
  obtain ⟨hlt, hget⟩ := List.getElem?_eq_some_iff.mp hb
  exact hinv b (hget ▸ List.getElem_mem hlt)

theorem MapInv_construct (hash_builder : K → Nat) (bucket_count : Nat) :
    MapInv (Map.with_hasher_and_bucket_count (V := V) hash_builder bucket_count) := by
  intro b hb
  rw [Map.with_hasher_and_bucket_count] at hb
  simp only [List.mem_replicate] at hb
  rw [hb.2]
  exact List.nodup_nil

theorem MapInv_put (m m' : Map K V) (key : K) (value : V)
    (hinv : MapInv m) (h : m.put key value = some m') : MapInv m' := by
  obtain ⟨i, b, hi, hb, rfl⟩ := put_some_elim m m' key value h
  intro b' hb'
  rcases List.mem_or_eq_of_mem_set hb' with hmem | heq
  · exact hinv b' hmem
  · rw [heq]
    exact keysNodup_putSpec key value b (MapInv_bucket m i b hinv hb)

theorem MapInv_unmap (m m' : Map K V) (key : K)
    (hinv : MapInv m) (h : m.unmap key = some m') : MapInv m' := by
  obtain ⟨i, b, b', hi, hb, hu, rfl⟩ := unmap_some_elim m m' key h
  intro b'' hb''
  rcases List.mem_or_eq_of_mem_set hb'' with hmem | heq
  · exact hinv b'' hmem
  · rw [heq]
    exact keysNodup_unmap key b b' (MapInv_bucket m i b hinv hb) hu

end CMap

theorem set_getElem_self_eq {α : Type} (l : List α) (i : Nat) (a : α)
    (h : l[i]? = some a) : l.set i a = l := by
  induction l generalizing i with
  | nil => simp at h
  | cons x t ih =>
    cases i with
    | zero =>
      simp only [List.getElem?_cons_zero, Option.some.injEq] at h
      rw [← h, List.set_cons_zero]
    | succ j =>
      rw [List.getElem?_cons_succ] at h
      rw [List.set_cons_succ, ih j h]

namespace CMap

/-! ### Map-level behavior lemmas -/

theorem map_put_get_same (m m' : Map K V) (key : K) (value : V)
    (h : m.put key value = some m') : m'.get key = some (some value) := by
  obtain ⟨i, b, hi, hb, rfl⟩ := put_some_elim m m' key value h
  have hlt : i < m.buckets.length := get_bucket_index_lt m key i hi
  have hidx : ({ m with buckets := m.buckets.set i (putSpec key value b) } :
      Map K V).get_bucket_index key = some i := by
    rw [index_stable_of_shape m
      { m with buckets := m.buckets.set i (putSpec key value b) } key rfl
      (List.length_set m.buckets i _), hi]
  have hb' : (m.buckets.set i (putSpec key value b))[i]? = some (putSpec key value b) :=
    List.getElem?_set_self hlt
  rw [get_eq_of_index _ key i _ hidx hb', get_putSpec_self]

theorem map_put_get_frame (m m' : Map K V) (k1 k2 : K) (value : V)
    (hne : k2 ≠ k1) (h : m.put k1 value = some m') : m'.get k2 = m.get k2 := by
  obtain ⟨i, b, hi, hb, rfl⟩ := put_some_elim m m' k1 value h
  set mm : Map K V := { m with buckets := m.buckets.set i (putSpec k1 value b) } with hmm
  have hpos : 0 < m.buckets.length :=
    Nat.pos_of_ne_zero (fun hc => by rw [get_bucket_index_none m k1 hc] at hi; exact absurd hi (by simp))
  have hidx2 : mm.get_bucket_index k2 = m.get_bucket_index k2 :=
    index_stable_of_shape m mm k2 rfl (List.length_set m.buckets i _)
  obtain ⟨j, hj⟩ : ∃ j, m.get_bucket_index k2 = some j :=
    ⟨_, get_bucket_index_of_pos m k2 hpos⟩
  have hjlt : j < m.buckets.length := get_bucket_index_lt m k2 j hj
  by_cases hij : j = i
  · subst hij
    have h1 : mm.buckets[j]? = some (putSpec k1 value b) := List.getElem?_set_self hjlt
    have h2 : m.buckets[j]? = some b := hb
    rw [get_eq_of_index mm k2 j _ (hidx2.trans hj) h1,
      get_eq_of_index m k2 j b hj h2, get_putSpec_ne k2 k1 value b hne]
  · have h1 : mm.buckets[j]? = m.buckets[j]? := List.getElem?_set_ne (fun hc => hij hc.symm)
    obtain ⟨bj, hbj⟩ : ∃ bj, m.buckets[j]? = some bj :=
      ⟨_, List.getElem?_eq_getElem hjlt⟩
    rw [get_eq_of_index mm k2 j bj (hidx2.trans hj) (h1.trans hbj),
      get_eq_of_index m k2 j bj hj hbj]

theorem map_unmap_get_frame (m m' : Map K V) (k1 k2 : K)
    (hne : k2 ≠ k1) (hinv : MapInv m) (h : m.unmap k1 = some m') :
    m'.get k2 = m.get k2 := by
  obtain ⟨i, b, b', hi, hb, hu, rfl⟩ := unmap_some_elim m m' k1 h
  set mm : Map K V := { m with buckets := m.buckets.set i b' } with hmm
  have hpos : 0 < m.buckets.length :=
    Nat.pos_of_ne_zero (fun hc => by rw [get_bucket_index_none m k1 hc] at hi; exact absurd hi (by simp))
  have hidx2 : mm.get_bucket_index k2 = m.get_bucket_index k2 :=
    index_stable_of_shape m mm k2 rfl (List.length_set m.buckets i _)
  obtain ⟨j, hj⟩ : ∃ j, m.get_bucket_index k2 = some j :=
    ⟨_, get_bucket_index_of_pos m k2 hpos⟩
  have hjlt : j < m.buckets.length := get_bucket_index_lt m k2 j hj
  by_cases hij : j = i
  · subst hij
    have h1 : mm.buckets[j]? = some b' := List.getElem?_set_self hjlt
    rw [get_eq_of_index mm k2 j b' (hidx2.trans hj) h1,
      get_eq_of_index m k2 j b hj hb,
      get_unmap_ne k2 k1 b b' hne (MapInv_bucket m j b hinv hb) hu]
  · have h1 : mm.buckets[j]? = m.buckets[j]? := List.getElem?_set_ne (fun hc => hij hc.symm)
    obtain ⟨bj, hbj⟩ : ∃ bj, m.buckets[j]? = some bj :=
      ⟨_, List.getElem?_eq_getElem hjlt⟩
    rw [get_eq_of_index mm k2 j bj (hidx2.trans hj) (h1.trans hbj),
      get_eq_of_index m k2 j bj hj hbj]

theorem map_unmap_get_same (m m' : Map K V) (key : K)
    (hinv : MapInv m) (h : m.unmap key = some m') : m'.get key = some none := by
  obtain ⟨i, b, b', hi, hb, hu, rfl⟩ := unmap_some_elim m m' key h
  have hlt : i < m.buckets.length := get_bucket_index_lt m key i hi
  have hidx : ({ m with buckets := m.buckets.set i b' } :
      Map K V).get_bucket_index key = some i := by
    rw [index_stable_of_shape m { m with buckets := m.buckets.set i b' } key rfl
      (List.length_set m.buckets i _), hi]
  have hb' : (m.buckets.set i b')[i]? = some b' := List.getElem?_set_self hlt
  rw [get_eq_of_index _ key i b' hidx hb',
    get_unmap_self key b b' (MapInv_bucket m i b hinv hb) hu]

theorem map_put_unmap_get (m m1 m2 : Map K V) (key : K) (value : V)
    (hinv : MapInv m) (h1 : m.put key value = some m1)
    (h2 : m1.unmap key = some m2) : m2.get key = some none :=
  map_unmap_get_same m1 m2 key (MapInv_put m m1 key value hinv h1) h2

theorem map_unmap_absent (m : Map K V) (key : K)
    (hpos : 0 < m.buckets.length) (habs : keyAbsent m key) :
    m.unmap key = some m := by
  rw [Map.unmap, get_bucket_index_of_pos m key hpos, Option.some_bind]
  have hlt : m.hash_builder key % 2 ^ 64 % m.buckets.length < m.buckets.length :=
    Nat.mod_lt _ hpos
  rw [List.getElem?_eq_getElem hlt, Option.some_bind]
  have habs' : key ∉ (m.buckets[m.hash_builder key % 2 ^ 64 % m.buckets.length]).map
      Prod.fst := habs _ (List.getElem_mem hlt)
  rw [unmap_of_absent key _ habs', Option.map_some']
  have hset : m.buckets.set (m.hash_builder key % 2 ^ 64 % m.buckets.length)
      (m.buckets[m.hash_builder key % 2 ^ 64 % m.buckets.length]) = m.buckets :=
    set_getElem_self_eq _ _ _ (List.getElem?_eq_getElem hlt)
  rw [hset]

theorem map_get_absent (m : Map K V) (key : K)
    (hpos : 0 < m.buckets.length) (habs : keyAbsent m key) :
    m.get key = some none := by
  rw [Map.get, get_bucket_index_of_pos m key hpos, Option.some_bind]
  have hlt : m.hash_builder key % 2 ^ 64 % m.buckets.length < m.buckets.length :=
    Nat.mod_lt _ hpos
  rw [List.getElem?_eq_getElem hlt, Option.map_some']
  rw [(get_eq_none_iff key _).mpr (habs _ (List.getElem_mem hlt))]

theorem map_ops_none_of_zero (m : Map K V) (key : K) (value : V)
    (h : m.buckets.length = 0) :
    m.get key = none ∧ m.put key value = none ∧ m.unmap key = none := by
  refine ⟨?_, ?_, ?_⟩
  · rw [Map.get, get_bucket_index_none m key h, Option.none_bind]
  · rw [Map.put, get_bucket_index_none m key h, Option.none_bind]
  · rw [Map.unmap, get_bucket_index_none m key h, Option.none_bind]

end CMap

namespace CMap

/-- Runs a sequence of `Map::put` calls in order, propagating a panic. -/
def runPuts : Map K V → List (K × V) → Option (Map K V)
  | m, [] => some m
  | m, (key, value) :: rest =>
    match m.put key value with
    | none => none
    | some m' => runPuts m' rest

theorem runPuts_shape (m m' : Map K V) (ops : List (K × V))
    (h : runPuts m ops = some m') :
    m'.hash_builder = m.hash_builder ∧ m'.buckets.length = m.buckets.length := by
  induction ops generalizing m with
  | nil =>
    rw [runPuts] at h
    rw [← Option.some.inj h]
    exact ⟨rfl, rfl⟩
  | cons e rest ih =>
    rcases e with ⟨key, value⟩
    rw [runPuts] at h
    cases hp : m.put key value with
    | none => rw [hp] at h; exact absurd h (by simp)
    | some m1 =>
      rw [hp] at h
      obtain ⟨hh, hl⟩ := ih m1 h
      obtain ⟨hh', hl'⟩ := put_preserves_shape m m1 key value hp
      exact ⟨hh.trans hh', hl.trans hl'⟩

theorem runPuts_isSome (m : Map K V) (ops : List (K × V))
    (h : 0 < m.buckets.length) : (runPuts m ops).isSome := by
  induction ops generalizing m with
  | nil => rfl
  | cons e rest ih =>
    rcases e with ⟨key, value⟩
    rw [runPuts]
    obtain ⟨m1, hm1⟩ := Option.isSome_iff_exists.mp (put_isSome_of_pos m key value h)
    rw [hm1]
    exact ih m1 ((put_preserves_shape m m1 key value hm1).2 ▸ h)

end CMap

namespace LMap

/-! ### The crate-root copy agrees with the module copy -/

theorem findEntryList_eq (key : K) (b : BucketData K V) :
    findEntryList key b = CMap.findEntryList key b := by
  induction b with
  | nil => rfl
  | cons e rest ih => rw [findEntryList, CMap.findEntryList, ih]

theorem bucket_put_eq (key : K) (value : V) (b : BucketData K V) :
    Bucket.put key value b = CMap.Bucket.put key value b := by
  simp only [Bucket.put, CMap.Bucket.put, find_entry_for, CMap.find_entry_for,
    findEntryList_eq]

theorem bucket_unmap_eq (key : K) (b : BucketData K V) :
    Bucket.unmap key b = CMap.Bucket.unmap key b := by
  simp only [Bucket.unmap, CMap.Bucket.unmap, find_entry_for, CMap.find_entry_for,
    findEntryList_eq]

theorem bucket_get_eq (key : K) (d : V) (b : BucketData K V) :
    Bucket.get key d b = (CMap.Bucket.get key b).getD d := by
  rw [CMap.get_unfold]
  simp only [Bucket.get, find_entry_for, LockWrapper.deref, findEntryList_eq]
  cases hf : CMap.findEntryList key b with
  | none => simp
  | some p => cases p with | mk i e => simp

/-- The field-for-field translation between the two `Map` structures. -/
def toL (m : CMap.Map K V) : Map K V :=
  { hash_builder := m.hash_builder, buckets := m.buckets }

/-- Inverse direction of the field-for-field translation. -/
def toC (m : Map K V) : CMap.Map K V :=
  { hash_builder := m.hash_builder, buckets := m.buckets }

theorem toL_toC (m : Map K V) : toL (toC m) = m := rfl

theorem toL_index (m : CMap.Map K V) (key : K) :
    (toL m).get_bucket_index key = m.get_bucket_index key := rfl

theorem toL_put (m : CMap.Map K V) (key : K) (value : V) :
    (toL m).put key value = Option.map toL (m.put key value) := by
  rw [Map.put, CMap.Map.put, toL_index]
  cases m.get_bucket_index key with
  | none => rfl
  | some i =>
    simp only [Option.some_bind]
    show (m.buckets[i]?.bind fun b => _) = _
    cases m.buckets[i]? with
    | none => rfl
    | some b =>
      simp only [Option.some_bind, bucket_put_eq]
      cases CMap.Bucket.put key value b with
      | none => rfl
      | some b' => rfl

theorem toL_get [Inhabited V] (m : CMap.Map K V) (key : K) :
    (toL m).get key = Option.map (fun o => o.getD default) (m.get key) := by
  rw [Map.get, CMap.Map.get, toL_index]
  cases m.get_bucket_index key with
  | none => rfl
  | some i =>
    simp only [Option.some_bind]
    show (Option.map (Bucket.get key default) m.buckets[i]?) = _
    cases m.buckets[i]? with
    | none => rfl
    | some b => simp only [Option.map_some', bucket_get_eq]

theorem new_toL (n : Nat) (hash_builder : K → Nat) :
    Map.new (V := V) n hash_builder =
      toL (CMap.Map.with_hasher_and_bucket_count hash_builder n) := rfl

/-- Runs a sequence of crate-root `Map::put` calls in order. -/
def runPuts : Map K V → List (K × V) → Option (Map K V)
  | m, [] => some m
  | m, (key, value) :: rest =>
    match m.put key value with
    | none => none
    | some m' => runPuts m' rest

theorem runPuts_toL (m : CMap.Map K V) (ops : List (K × V)) :
    runPuts (toL m) ops = Option.map toL (CMap.runPuts m ops) := by
  induction ops generalizing m with
  | nil => rfl
  | cons e rest ih =>
    rcases e with ⟨key, value⟩
    rw [runPuts, CMap.runPuts, toL_put]
    cases m.put key value with
    | none => rfl
    | some m1 =>
      simp only [Option.map_some']
      exact ih m1

theorem lib_index_none (m : Map K V) (key : K)
    (h : m.buckets.length = 0) : m.get_bucket_index key = none := by
  rw [Map.get_bucket_index, if_pos h]

theorem lib_ops_none_of_zero [Inhabited V] (m : Map K V) (key : K) (value : V)
    (h : m.buckets.length = 0) : m.get key = none ∧ m.put key value = none := by
  constructor
  · rw [Map.get, lib_index_none m key h, Option.none_bind]
  · rw [Map.put, lib_index_none m key h, Option.none_bind]

theorem get_via_toC [Inhabited V] (m : Map K V) (key : K) :
    m.get key = Option.map (fun o => o.getD default) ((toC m).get key) := by
  have hg := toL_get (toC m) key
  rw [toL_toC] at hg
  exact hg

theorem put_via_toC (m : Map K V) (key : K) (value : V) :
    m.put key value = Option.map toL ((toC m).put key value) := by
  have hp := toL_put (toC m) key value
  rw [toL_toC] at hp
  exact hp

theorem lib_get_isSome_of_pos [Inhabited V] (m : Map K V) (key : K)
    (h : 0 < m.buckets.length) : (m.get key).isSome := by
  rw [get_via_toC]
  obtain ⟨o, ho⟩ := Option.isSome_iff_exists.mp (CMap.get_isSome_of_pos (toC m) key h)
  rw [ho]
  rfl

theorem lib_put_isSome_of_pos (m : Map K V) (key : K) (value : V)
    (h : 0 < m.buckets.length) : (m.put key value).isSome := by
  rw [put_via_toC]
  obtain ⟨mc, hmc⟩ := Option.isSome_iff_exists.mp
    (CMap.put_isSome_of_pos (toC m) key value h)
  rw [hmc]
  rfl

theorem lib_put_get_same [Inhabited V] (m m' : Map K V) (key : K) (value : V)
    (h : m.put key value = some m') : m'.get key = some value := by
  rw [put_via_toC] at h
  cases hc : (toC m).put key value with
  | none => rw [hc] at h; exact absurd h (by simp)
  | some mc' =>
    rw [hc] at h
    simp only [Option.map_some'] at h
    rw [← Option.some.inj h, toL_get,
      CMap.map_put_get_same (toC m) mc' key value hc]
    rfl

theorem lib_get_absent [Inhabited V] (m : Map K V) (key : K)
    (hpos : 0 < m.buckets.length)
    (habs : ∀ b ∈ m.buckets, key ∉ b.map Prod.fst) : m.get key = some default := by
  rw [get_via_toC, CMap.map_get_absent (toC m) key hpos habs]
  rfl

theorem lib_bucket_put_isSome (key : K) (value : V) (b : BucketData K V) :
    (Bucket.put key value b).isSome := by
  rw [bucket_put_eq]
  exact CMap.put_isSome key value b

theorem lib_bucket_unmap_isSome (key : K) (b : BucketData K V) :
    (Bucket.unmap key b).isSome := by
  rw [bucket_unmap_eq]
  exact CMap.unmap_isSome key b

theorem lib_index_of_pos (m : Map K V) (key : K) (h : 0 < m.buckets.length) :
    m.get_bucket_index key =
      some (m.hash_builder key % 2 ^ 64 % m.buckets.length) := by
  rw [Map.get_bucket_index, if_neg (Nat.pos_iff_ne_zero.mp h)]

theorem lib_put_shape (m m' : Map K V) (key : K) (value : V)
    (h : m.put key value = some m') :
    m'.hash_builder = m.hash_builder ∧ m'.buckets.length = m.buckets.length := by
  rw [put_via_toC] at h
  cases hc : (toC m).put key value with
  | none => rw [hc] at h; exact absurd h (by simp)
  | some mc' =>
    rw [hc] at h
    simp only [Option.map_some'] at h
    obtain ⟨hh, hl⟩ := CMap.put_preserves_shape (toC m) mc' key value hc
    rw [← Option.some.inj h]
    exact ⟨hh, hl⟩

theorem lib_index_stable (m m' : Map K V) (k' key : K) (value : V)
    (h : m.put k' value = some m') :
    m'.get_bucket_index key = m.get_bucket_index key := by
  obtain ⟨hh, hl⟩ := lib_put_shape m m' k' value h
  rw [Map.get_bucket_index, Map.get_bucket_index, hh, hl]

end LMap

/-! ### Claim theorems -/

/-- C1: Presence after insert — for every key `k` and value `v`, immediately
after `Map::put(k, v)` completes, `Map::get(k)` returns `Some(v)` in the
module copy, and `v` in the default-returning crate-root copy. -/
theorem c1_presence_after_insert :
    (∀ (A B : Type) [DecidableEq A] (m m' : CMap.Map A B) (key : A) (value : B),
        m.put key value = some m' → m'.get key = some (some value)) ∧
    (∀ (A B : Type) [DecidableEq A] [Inhabited B] (m m' : LMap.Map A B)
        (key : A) (value : B),
        m.put key value = some m' → m'.get key = some value) :=
  ⟨fun _ _ _ m m' key value h => CMap.map_put_get_same m m' key value h,
   fun _ _ _ _ m m' key value h => LMap.lib_put_get_same m m' key value h⟩

theorem c1_witness :
    ({ hash_builder := fun n => n, buckets := [[(1, 2)]] } : CMap.Map Nat Nat).get 1 =
        some (some 2) ∧
    ({ hash_builder := fun n => n, buckets := [[(1, 2)]] } : LMap.Map Nat Nat).get 1 =
        some 2 :=
  ⟨c1_presence_after_insert.1 Nat Nat
      { hash_builder := fun n => n, buckets := [[]] }
      { hash_builder := fun n => n, buckets := [[(1, 2)]] } 1 2 (by rfl),
   c1_presence_after_insert.2 Nat Nat
      { hash_builder := fun n => n, buckets := [[]] }
      { hash_builder := fun n => n, buckets := [[(1, 2)]] } 1 2 (by rfl)⟩

/-- C2 (code-bug evidence): of the three construction paths, only
`with_bucket_count` rejects a zero bucket count; `with_hasher_and_bucket_count`
(despite its own `# Panics` doc comment) and the crate-root `Map::new`
silently construct a zero-bucket map instead of failing fast. -/
theorem c2_zero_bucket_construction :
    CMap.Map.with_bucket_count (K := Nat) (V := Nat) (fun n => n) 0 = none ∧
    (CMap.Map.with_hasher_and_bucket_count (K := Nat) (V := Nat)
        (fun n => n) 0).buckets.length = 0 ∧
    (LMap.Map.new (K := Nat) (V := Nat) 0 (fun n => n)).buckets.length = 0 :=
  ⟨rfl, rfl, rfl⟩

/-- C3: Unique-key invariant — construction establishes it, `put` and `unmap`
preserve it, and `put(k, v1); put(k, v2)` leaves exactly one entry for `k`,
holding `v2`. -/
theorem c3_unique_key_invariant :
    (∀ (A B : Type) [DecidableEq A] (hb : A → Nat) (n : Nat),
        CMap.MapInv (CMap.Map.with_hasher_and_bucket_count (V := B) hb n)) ∧
    (∀ (A B : Type) [DecidableEq A] (m m' : CMap.Map A B) (key : A) (value : B),
        CMap.MapInv m → m.put key value = some m' → CMap.MapInv m') ∧
    (∀ (A B : Type) [DecidableEq A] (m m' : CMap.Map A B) (key : A),
        CMap.MapInv m → m.unmap key = some m' → CMap.MapInv m') ∧
    (∀ (A B : Type) [DecidableEq A] (b b1 b2 : BucketData A B) (key : A) (v1 v2 : B),
        keysNodup b → CMap.Bucket.put key v1 b = some b1 →
        CMap.Bucket.put key v2 b1 = some b2 →
        countKey key b2 = 1 ∧ CMap.Bucket.get key b2 = some v2) := by
  refine ⟨fun _ _ _ hb n => CMap.MapInv_construct hb n,
    fun _ _ _ m m' key value hinv h => CMap.MapInv_put m m' key value hinv h,
    fun _ _ _ m m' key hinv h => CMap.MapInv_unmap m m' key hinv h,
    ?_⟩
  intro A B _ b b1 b2 key v1 v2 hnd h1 h2
  rw [CMap.put_eq_putSpec] at h1 h2
  have hb1 : b1 = CMap.putSpec key v1 b := (Option.some.inj h1).symm
  have hb2 : b2 = CMap.putSpec key v2 b1 := (Option.some.inj h2).symm
  have hnd1 : keysNodup b1 := hb1 ▸ CMap.keysNodup_putSpec key v1 b hnd
  subst hb2
  exact ⟨CMap.countKey_putSpec key v2 b1 hnd1, CMap.get_putSpec_self key v2 b1⟩

theorem c3_witness :
    CMap.MapInv (CMap.Map.with_hasher_and_bucket_count (V := Nat) (fun n => n) 2) ∧
    (countKey 1 ([(1, 3)] : BucketData Nat Nat) = 1 ∧
      CMap.Bucket.get 1 ([(1, 3)] : BucketData Nat Nat) = some 3) :=
  ⟨c3_unique_key_invariant.1 Nat Nat (fun n => n) 2,
   c3_unique_key_invariant.2.2.2 Nat Nat [] [(1, 2)] [(1, 3)] 1 2 3
      List.nodup_nil (by rfl) (by rfl)⟩

/-- C4: Removal semantics — `put(k, v); unmap(k); get(k)` observes absence;
`unmap` of an absent key returns the map unchanged; and when the key is
found at index `i`, `Bucket::unmap` removes it via `swap_remove i`. -/
theorem c4_removal :
    (∀ (A B : Type) [DecidableEq A] (m m1 m2 : CMap.Map A B) (key : A) (value : B),
        CMap.MapInv m → m.put key value = some m1 → m1.unmap key = some m2 →
        m2.get key = some none) ∧
    (∀ (A B : Type) [DecidableEq A] (m : CMap.Map A B) (key : A),
        0 < m.buckets.length → CMap.keyAbsent m key → m.unmap key = some m) ∧
    (∀ (A B : Type) [DecidableEq A] (b : BucketData A B) (key : A) (i : Nat)
        (e : A × B),
        CMap.findEntryList key b = some (i, e) →
        CMap.Bucket.unmap key b = swap_remove i b) := by
  refine ⟨fun _ _ _ m m1 m2 key value hinv h1 h2 =>
      CMap.map_put_unmap_get m m1 m2 key value hinv h1 h2,
    fun _ _ _ m key hpos habs => CMap.map_unmap_absent m key hpos habs,
    ?_⟩
  intro A B _ b key i e hf
  rw [CMap.unmap_unfold, hf]

theorem c4_witness :
    ({ hash_builder := fun n => n, buckets := [[]] } : CMap.Map Nat Nat).get 1 =
        some none ∧
    ({ hash_builder := fun n => n, buckets := [[(7, 8)]] } :
        CMap.Map Nat Nat).unmap 1 =
      some { hash_builder := fun n => n, buckets := [[(7, 8)]] } ∧
    CMap.Bucket.unmap 1 ([(1, 2)] : BucketData Nat Nat) = swap_remove 0 [(1, 2)] :=
  ⟨c4_removal.1 Nat Nat
      { hash_builder := fun n => n, buckets := [[]] }
      { hash_builder := fun n => n, buckets := [[(1, 2)]] }
      { hash_builder := fun n => n, buckets := [[]] } 1 2
      (fun b hb => by
        simp only [List.mem_singleton] at hb
        rw [hb]; exact List.nodup_nil)
      (by rfl) (by rfl),
   c4_removal.2.1 Nat Nat
      { hash_builder := fun n => n, buckets := [[(7, 8)]] } 1
      (by decide)
      (fun b hb => by
        simp only [List.mem_singleton] at hb
        rw [hb]; decide),
   c4_removal.2.2 Nat Nat [(1, 2)] 1 0 (1, 2) (by rfl)⟩

/-- C5: Key independence — `put(k1, v)` and `unmap(k1)` leave the value
observed through `get(k2)` unchanged for every `k2 ≠ k1`; `get` itself is a
pure function of the map state in this embedding (it takes `&self` and
returns no new state), so it mutates nothing. -/
theorem c5_key_independence :
    (∀ (A B : Type) [DecidableEq A] (m m' : CMap.Map A B) (k1 k2 : A) (value : B),
        k2 ≠ k1 → m.put k1 value = some m' → m'.get k2 = m.get k2) ∧
    (∀ (A B : Type) [DecidableEq A] (m m' : CMap.Map A B) (k1 k2 : A),
        k2 ≠ k1 → CMap.MapInv m → m.unmap k1 = some m' → m'.get k2 = m.get k2) :=
  ⟨fun _ _ _ m m' k1 k2 value hne h => CMap.map_put_get_frame m m' k1 k2 value hne h,
   fun _ _ _ m m' k1 k2 hne hinv h => CMap.map_unmap_get_frame m m' k1 k2 hne hinv h⟩

theorem c5_witness :
    ({ hash_builder := fun n => n, buckets := [[(2, 9), (1, 2)]] } :
        CMap.Map Nat Nat).get 2 =
      ({ hash_builder := fun n => n, buckets := [[(2, 9)]] } : CMap.Map Nat Nat).get 2 ∧
    ({ hash_builder := fun n => n, buckets := [[(2, 9)]] } : CMap.Map Nat Nat).get 2 =
      ({ hash_builder := fun n => n, buckets := [[(1, 5), (2, 9)]] } :
        CMap.Map Nat Nat).get 2 :=
  ⟨c5_key_independence.1 Nat Nat
      { hash_builder := fun n => n, buckets := [[(2, 9)]] }
      { hash_builder := fun n => n, buckets := [[(2, 9), (1, 2)]] } 1 2 2
      (by decide) (by rfl),
   c5_key_independence.2 Nat Nat
      { hash_builder := fun n => n, buckets := [[(1, 5), (2, 9)]] }
      { hash_builder := fun n => n, buckets := [[(2, 9)]] } 1 2
      (by decide)
      (fun b hb => by
        simp only [List.mem_singleton] at hb
        rw [hb]
        unfold keysNodup
        decide)
      (by rfl)⟩

/-- C6: Routing determinism and stability — with a positive bucket count the
bucket index is exactly `hash(key) mod n`, a function of the hash builder and
the bucket count alone, and both are preserved by `put` and `unmap`, so a key
routes to the same bucket index across the Map's whole lifetime. -/
theorem c6_routing_stability :
    (∀ (A B : Type) [DecidableEq A] (m : CMap.Map A B) (key : A),
        0 < m.buckets.length →
        m.get_bucket_index key =
          some (m.hash_builder key % 2 ^ 64 % m.buckets.length)) ∧
    (∀ (A B : Type) [DecidableEq A] (m m' : CMap.Map A B) (k' key : A) (value : B),
        m.put k' value = some m' →
        m'.get_bucket_index key = m.get_bucket_index key) ∧
    (∀ (A B : Type) [DecidableEq A] (m m' : CMap.Map A B) (k' key : A),
        m.unmap k' = some m' →
        m'.get_bucket_index key = m.get_bucket_index key) ∧
    (∀ (A B : Type) [DecidableEq A] (m : LMap.Map A B) (key : A),
        0 < m.buckets.length →
        m.get_bucket_index key =
          some (m.hash_builder key % 2 ^ 64 % m.buckets.length)) ∧
    (∀ (A B : Type) [DecidableEq A] (m m' : LMap.Map A B) (k' key : A) (value : B),
        m.put k' value = some m' →
        m'.get_bucket_index key = m.get_bucket_index key) := by
  refine ⟨fun _ _ _ m key h => CMap.get_bucket_index_of_pos m key h, ?_, ?_,
    fun _ _ _ m key h => LMap.lib_index_of_pos m key h,
    fun _ _ _ m m' k' key value h => LMap.lib_index_stable m m' k' key value h⟩
  · intro A B _ m m' k' key value h
    obtain ⟨hh, hl⟩ := CMap.put_preserves_shape m m' k' value h
    exact CMap.index_stable_of_shape m m' key hh hl
  · intro A B _ m m' k' key h
    obtain ⟨hh, hl⟩ := CMap.unmap_preserves_shape m m' k' h
    exact CMap.index_stable_of_shape m m' key hh hl

theorem c6_witness :
    ({ hash_builder := fun n => n, buckets := [[], []] } :
        CMap.Map Nat Nat).get_bucket_index 5 = some 1 ∧
    ({ hash_builder := fun n => n, buckets := [[], [(5, 6)]] } :
        CMap.Map Nat Nat).get_bucket_index 5 =
      ({ hash_builder := fun n => n, buckets := [[], []] } :
        CMap.Map Nat Nat).get_bucket_index 5 := by
  constructor
  · have h := c6_routing_stability.1 Nat Nat
      { hash_builder := fun n => n, buckets := [[], []] } 5 (by decide)
    rw [h]
    rfl
  · exact c6_routing_stability.2.1 Nat Nat
      { hash_builder := fun n => n, buckets := [[], []] }
      { hash_builder := fun n => n, buckets := [[], [(5, 6)]] } 5 5 6 (by rfl)

/-- C7: Lock-misuse contract — `DerefMut` on a `Read` guard is the fatal
panic (modelled as `none`), while `put` and `unmap` of both copies always
succeed at the bucket level because their mutations run through a `Write`
guard, and `get` performs no `DerefMut` access at all (it is total). -/
theorem c7_lock_misuse :
    (∀ (T : Type) (t : T), (LockWrapper.Read t).deref_mut = none) ∧
    (∀ (A B : Type) [DecidableEq A] (key : A) (value : B) (b : BucketData A B),
        (CMap.Bucket.put key value b).isSome) ∧
    (∀ (A B : Type) [DecidableEq A] (key : A) (b : BucketData A B),
        (CMap.Bucket.unmap key b).isSome) ∧
    (∀ (A B : Type) [DecidableEq A] (key : A) (value : B) (b : BucketData A B),
        (LMap.Bucket.put key value b).isSome) ∧
    (∀ (A B : Type) [DecidableEq A] (key : A) (b : BucketData A B),
        (LMap.Bucket.unmap key b).isSome) :=
  ⟨fun _ _ => rfl,
   fun _ _ _ key value b => CMap.put_isSome key value b,
   fun _ _ _ key b => CMap.unmap_isSome key b,
   fun _ _ _ key value b => LMap.lib_bucket_put_isSome key value b,
   fun _ _ _ key b => LMap.lib_bucket_unmap_isSome key b⟩

/-- C8: Equivalence of the two copies — from the same hash builder and the
same positive bucket count, after any sequence of `put` operations both maps
are defined, and the crate-root `get` equals the module `get` with the
`Option` unwrapped through `V::default()`. -/
theorem c8_two_copies_agree :
    ∀ (A B : Type) [DecidableEq A] [Inhabited B] (hb : A → Nat) (n : Nat)
      (ops : List (A × B)) (key : A), 0 < n →
      ∃ (mc : CMap.Map A B) (ml : LMap.Map A B) (ov : Option B),
        CMap.runPuts (CMap.Map.with_hasher_and_bucket_count hb n) ops = some mc ∧
        LMap.runPuts (LMap.Map.new n hb) ops = some ml ∧
        mc.get key = some ov ∧ ml.get key = some (ov.getD default) := by
  intro A B _ _ hb n ops key hn
  set m0 : CMap.Map A B := CMap.Map.with_hasher_and_bucket_count hb n with hm0
  have hlen : m0.buckets.length = n := List.length_replicate n []
  obtain ⟨mc, hmc⟩ := Option.isSome_iff_exists.mp
    (CMap.runPuts_isSome m0 ops (hlen ▸ hn))
  have hclen : mc.buckets.length = n := (CMap.runPuts_shape m0 mc ops hmc).2.trans hlen
  obtain ⟨ov, hov⟩ := Option.isSome_iff_exists.mp
    (CMap.get_isSome_of_pos mc key (hclen ▸ hn))
  refine ⟨mc, LMap.toL mc, ov, hmc, ?_, hov, ?_⟩
  · rw [LMap.new_toL, LMap.runPuts_toL, hmc]
    rfl
  · rw [LMap.toL_get, hov]
    rfl

theorem c8_witness :
    ∃ (mc : CMap.Map Nat Nat) (ml : LMap.Map Nat Nat) (ov : Option Nat),
      CMap.runPuts (CMap.Map.with_hasher_and_bucket_count (fun n => n) 1)
          [(1, 2)] = some mc ∧
      LMap.runPuts (LMap.Map.new 1 (fun n => n)) [(1, 2)] = some ml ∧
      mc.get 1 = some ov ∧ ml.get 1 = some (ov.getD default) :=
  c8_two_copies_agree Nat Nat (fun n => n) 1 [(1, 2)] 1 (by decide)

/-- C9: Zero-bucket maps are constructible through the unchecked paths, and
on such a map every operation hits the `hash % 0` routing panic (`none`),
while with a positive bucket count the routing and indexing never panic. -/
theorem c9_zero_bucket_panics :
    (∀ (A B : Type) [DecidableEq A] (hb : A → Nat),
        (CMap.Map.with_hasher_and_bucket_count (V := B) hb 0).buckets.length = 0) ∧
    (∀ (A B : Type) [DecidableEq A] (hb : A → Nat),
        (LMap.Map.new (V := B) 0 hb).buckets.length = 0) ∧
    (∀ (A B : Type) [DecidableEq A] (m : CMap.Map A B) (key : A) (value : B),
        m.buckets.length = 0 →
        m.get key = none ∧ m.put key value = none ∧ m.unmap key = none) ∧
    (∀ (A B : Type) [DecidableEq A] [Inhabited B] (m : LMap.Map A B) (key : A)
        (value : B),
        m.buckets.length = 0 → m.get key = none ∧ m.put key value = none) ∧
    (∀ (A B : Type) [DecidableEq A] (m : CMap.Map A B) (key : A) (value : B),
        0 < m.buckets.length →
        (m.get key).isSome ∧ (m.put key value).isSome ∧ (m.unmap key).isSome) ∧
    (∀ (A B : Type) [DecidableEq A] [Inhabited B] (m : LMap.Map A B) (key : A)
        (value : B),
        0 < m.buckets.length → (m.get key).isSome ∧ (m.put key value).isSome) :=
  ⟨fun _ _ _ _ => rfl,
   fun _ _ _ _ => rfl,
   fun _ _ _ m key value h => CMap.map_ops_none_of_zero m key value h,
   fun _ _ _ _ m key value h => LMap.lib_ops_none_of_zero m key value h,
   fun _ _ _ m key value h =>
     ⟨CMap.get_isSome_of_pos m key h, CMap.put_isSome_of_pos m key value h,
      CMap.unmap_isSome_of_pos m key h⟩,
   fun _ _ _ _ m key value h =>
     ⟨LMap.lib_get_isSome_of_pos m key h, LMap.lib_put_isSome_of_pos m key value h⟩⟩

theorem c9_witness :
    (({ hash_builder := fun n => n, buckets := [] } : CMap.Map Nat Nat).get 1 = none ∧
      ({ hash_builder := fun n => n, buckets := [] } : CMap.Map Nat Nat).put 1 2 = none ∧
      ({ hash_builder := fun n => n, buckets := [] } : CMap.Map Nat Nat).unmap 1 = none) ∧
    (({ hash_builder := fun n => n, buckets := [[]] } :
        CMap.Map Nat Nat).get 1).isSome ∧
    (({ hash_builder := fun n => n, buckets := [[]] } :
        CMap.Map Nat Nat).put 1 2).isSome ∧
    (({ hash_builder := fun n => n, buckets := [[]] } :
        CMap.Map Nat Nat).unmap 1).isSome :=
  ⟨c9_zero_bucket_panics.2.2.1 Nat Nat
      { hash_builder := fun n => n, buckets := [] } 1 2 (by rfl),
   c9_zero_bucket_panics.2.2.2.2.1 Nat Nat
      { hash_builder := fun n => n, buckets := [[]] } 1 2 (by decide)⟩

/-- C10: In the crate-root copy a stored `V::default()` is indistinguishable
from absence — after `put(k, default)` the `get(k)` result equals the
`get(k)` result of any map in which `k` was never inserted. -/
theorem c10_default_indistinguishable :
    ∀ (A B : Type) [DecidableEq A] [Inhabited B] (m m' mfresh : LMap.Map A B)
      (key : A),
      m.put key default = some m' →
      0 < mfresh.buckets.length →
      (∀ b ∈ mfresh.buckets, key ∉ b.map Prod.fst) →
      m'.get key = some (default : B) ∧ mfresh.get key = some (default : B) ∧
        m'.get key = mfresh.get key := by
  intro A B _ _ m m' mfresh key hput hpos habs
  have h1 : m'.get key = some (default : B) :=
    LMap.lib_put_get_same m m' key default hput
  have h2 : mfresh.get key = some (default : B) :=
    LMap.lib_get_absent mfresh key hpos habs
  exact ⟨h1, h2, h1.trans h2.symm⟩

theorem c10_witness :
    ({ hash_builder := fun n => n, buckets := [[(1, 0)]] } : LMap.Map Nat Nat).get 1 =
        some 0 ∧
    ({ hash_builder := fun n => n, buckets := [[]] } : LMap.Map Nat Nat).get 1 =
        some 0 ∧
    ({ hash_builder := fun n => n, buckets := [[(1, 0)]] } : LMap.Map Nat Nat).get 1 =
      ({ hash_builder := fun n => n, buckets := [[]] } : LMap.Map Nat Nat).get 1 :=
  c10_default_indistinguishable Nat Nat
    { hash_builder := fun n => n, buckets := [[]] }
    { hash_builder := fun n => n, buckets := [[(1, 0)]] }
    { hash_builder := fun n => n, buckets := [[]] } 1
    (by rfl) (by decide)
    (fun b hb => by
      simp only [List.mem_singleton] at hb
      rw [hb]; decide)

end Palladium
